import Mathlib

/-!
Verification of the interactive time-series alignment and viewport engine of
the stock-site frontend (`frontend/src/App.jsx`, `frontend/src/hooks/useTweenNumber.js`,
`frontend/src/components/CompareMode.jsx`, `frontend/src/components/HotAndEarnings.jsx`).

Shallow embedding conventions:
* JS numbers are modelled as exact rationals `ℚ` (the properties at stake do not
  hinge on binary-float rounding); array indices and date arithmetic as `ℤ`/`ℕ`.
* `Math.round` is `fun q => ⌊q + 1/2⌋` (JS rounds half-up, toward +∞).
* Calendar dates handed to `new Date`/`setDate` are modelled as day numbers
  (`ℤ`), with the epoch aligned so that `d % 7 = 0` is Sunday and `6` is
  Saturday, matching `Date.getDay()`'s 0=Sun .. 6=Sat convention.
* Date strings (`YYYY-MM-DD` keys) stay `String`; JS string `<=` is the
  code-unit lexicographic comparison `strLe` below.
* `null`/`undefined`-able values are `Option`; absent map entries are `none`.
-/

namespace StockSite

/-! ### JS primitive helpers -/

/-- JS `Math.round`: rounds half away from zero toward +∞, i.e. `⌊x + 1/2⌋`. -/
def jsRound (q : ℚ) : ℤ := ⌊q + 1/2⌋

/-- The chart code's `clamp = (v, a, b) => Math.max(a, Math.min(b, v))` on indices. -/
def jsClampI (v a b : ℤ) : ℤ := max a (min b v)

/-- The same `clamp` applied to fractional values. -/
def jsClampQ (v a b : ℚ) : ℚ := max a (min b v)

/-- Code-unit lexicographic `<=` on character lists (JS string comparison). -/
def charsLe : List Char → List Char → Bool
  | [], _ => true
  | _ :: _, [] => false
  | a :: as, b :: bs =>
    if a.val < b.val then true
    else if b.val < a.val then false
    else charsLe as bs

/-- JS `<=` on strings: lexicographic by code unit (dates here are ASCII). -/
def strLe (a b : String) : Bool := charsLe a.data b.data

/-- JS `d || msg` on strings: keep `d` unless it is empty (falsy). -/
def jsOrStr (a b : String) : String := if a = "" then b else a

/-- JS truthiness of a nullable string (`null` and `""` are falsy). -/
def jsTruthyStr : Option String → Bool
  | none => false
  | some s => s ≠ ""

/-- Source `dkey = (s) => String(s).slice(0, 10)` — canonical `YYYY-MM-DD` key
(the first ten code units, taken on the character list). -/
def dkey (s : String) : String := ⟨s.data.take 10⟩

/-- Source `normModel = (s) => String(s || "").trim().toUpperCase()`. -/
def normModel (s : String) : String := s.trim.toUpper

/-! ### BusinessCalendar (`addBusinessDays` in App.jsx)

```js
const addBusinessDays = (start, n) => {
  const dt = start instanceof Date ? new Date(start) : asLocalDate(start);
  let added = 0;
  while (added < n) {
    dt.setDate(dt.getDate() + 1);
    const day = dt.getDay(); // 0=Sun,6=Sat
    if (day !== 0 && day !== 6) added++;
  }
  return dt;
};
```

The `while` loop advances one calendar day at a time and bumps `added` only on
weekdays; between two bumps of `added` the loop body runs once (next day is a
weekday), twice (next day is Sunday) or three times (next day is Saturday,
then Sunday, then Monday). `nextBusinessDay` is that per-bump unrolling. -/

/-- One `added++` round of the `addBusinessDays` loop: step day-by-day from `d`
until a non-weekend day is reached (`% 7`: 0=Sun, 6=Sat). -/
def nextBusinessDay (d : ℤ) : ℤ :=
  if (d + 1) % 7 = 6 then d + 3
  else if (d + 1) % 7 = 0 then d + 2
  else d + 1

/-- Source `addBusinessDays(start, n)` on day numbers: run the loop until `added = n`. -/
def addBusinessDays (start : ℤ) : ℕ → ℤ
  | 0 => start
  | n + 1 => nextBusinessDay (addBusinessDays start n)

/-- The two `Date` cells live during a call of `addBusinessDays(start, n)`:
the caller's argument object and the freshly-allocated `dt = new Date(start)`.
`setDate` is only ever invoked on `dt`. -/
structure BizState where
  startCell : ℤ
  dtCell : ℤ
  deriving DecidableEq

/-- The loop of `addBusinessDays`, as a state transformer: each `added++` round
rewrites only the `dt` cell. -/
def bizLoop : BizState → ℕ → BizState
  | st, 0 => st
  | st, n + 1 => bizLoop { st with dtCell := nextBusinessDay st.dtCell } n

/-- A full call `addBusinessDays(start, n)`: copy `start`'s time value into the
fresh `dt` cell (`new Date(start)`), then run the loop. The final state holds
the caller's cell and the returned object's cell. -/
def addBusinessDaysRun (start : ℤ) (n : ℕ) : BizState :=
  bizLoop ⟨start, start⟩ n

/-! ### BusinessCalendar lemmas -/

theorem nextBusinessDay_not_weekend (d : ℤ) :
    nextBusinessDay d % 7 ≠ 0 ∧ nextBusinessDay d % 7 ≠ 6 := by
  unfold nextBusinessDay
  have h := Int.emod_emod_of_dvd (d + 1) (dvd_refl 7)
  split_ifs with h6 h0 <;> constructor <;> omega

theorem addBusinessDays_succ (start : ℤ) (n : ℕ) :
    addBusinessDays start (n + 1) = nextBusinessDay (addBusinessDays start n) := rfl

/-- Claim C4 — `addBusinessDays` advances exactly `n` trading days skipping
Saturday (day 6) and Sunday (day 0): `n = 0` returns the start unchanged,
one business day after a Friday (day 5) is the following Monday (three
calendar days later, day 1), and for `n ≥ 1` the result is never a
Saturday or a Sunday. -/
theorem C4_addBusinessDays_skips_weekends (d : ℤ) (n : ℕ) :
    addBusinessDays d 0 = d ∧
    (d % 7 = 5 → addBusinessDays d 1 = d + 3 ∧ (d + 3) % 7 = 1) ∧
    (1 ≤ n → addBusinessDays d n % 7 ≠ 0 ∧ addBusinessDays d n % 7 ≠ 6) := by
  refine ⟨rfl, ?_, ?_⟩
  · intro hFri
    constructor
    · show nextBusinessDay (addBusinessDays d 0) = d + 3
      unfold addBusinessDays nextBusinessDay
      split_ifs with h6 h0 <;> omega
    · omega
  · intro hn
    obtain ⟨m, rfl⟩ : ∃ m, n = m + 1 := ⟨n - 1, by omega⟩
    exact nextBusinessDay_not_weekend (addBusinessDays d m)

/-- Witness for C4 at day 5 (a Friday), `n = 1`. -/
theorem C4_addBusinessDays_skips_weekends_witness :
    addBusinessDays 5 0 = 5 ∧
    ((5:ℤ) % 7 = 5 → addBusinessDays 5 1 = 5 + 3 ∧ ((5:ℤ) + 3) % 7 = 1) ∧
    (1 ≤ 1 → addBusinessDays 5 1 % 7 ≠ 0 ∧ addBusinessDays 5 1 % 7 ≠ 6) :=
  C4_addBusinessDays_skips_weekends 5 1

/-- Claim C10 — `addBusinessDays` never mutates its argument: the caller's `Date`
cell holds the same time value after the call as before, because the loop's
`setDate` writes go to the freshly-constructed copy `dt`; and that copy ends
at the pure `addBusinessDays` value. -/
theorem C10_addBusinessDays_no_mutation (start : ℤ) (n : ℕ) :
    (addBusinessDaysRun start n).startCell = start ∧
    (addBusinessDaysRun start n).dtCell = addBusinessDays start n := by
  have key : ∀ (m : ℕ) (st : BizState),
      (bizLoop st m).startCell = st.startCell ∧
      (bizLoop st m).dtCell = addBusinessDays st.dtCell m := by
    intro m
    induction m with
    | zero => intro st; exact ⟨rfl, rfl⟩
    | succ k ih =>
      intro st
      have h := ih { st with dtCell := nextBusinessDay st.dtCell }
      refine ⟨h.1, ?_⟩
      rw [bizLoop, h.2]
      have comm : ∀ (j : ℕ) (x : ℤ),
          addBusinessDays (nextBusinessDay x) j = addBusinessDays x (j + 1) := by
        intro j
        induction j with
        | zero => intro x; rfl
        | succ i ihj =>
          intro x
          show nextBusinessDay (addBusinessDays (nextBusinessDay x) i) = _
          rw [ihj x]
          rfl
      exact comm k st.dtCell
  exact key n ⟨start, start⟩

/-! ### Tweener (`hooks/useTweenNumber.js`, CompareMode's local `useTweenNumber`,
HotAndEarnings' Sparkline per-frame `tick`)

Each tick receives the animation-clock timestamp `now`; the emitted value is a
pure function of `(from, to, startTime, duration, now)`. -/

/-- Source `hooks/useTweenNumber.js` tick:
`p = Math.min(1, (t - start) / duration); v = from + (to - from) * p`. -/
def hookTween (fromVal toVal startT dur now : ℚ) : ℚ :=
  let p := min 1 ((now - startT) / dur)
  fromVal + (toVal - fromVal) * p

/-- CompareMode's local `useTweenNumber` tick:
`t = Math.min(1, (now - tStart) / duration); e = 1 - Math.pow(1 - t, 3);
setVal(from + (to - from) * e)`. -/
def compareTween (fromVal toVal startT dur now : ℚ) : ℚ :=
  let t := min 1 ((now - startT) / dur)
  let e := 1 - (1 - t) ^ 3
  fromVal + (toVal - fromVal) * e

/-- An interpolated chart point (`{x, y}`). -/
structure Pt where
  x : ℚ
  y : ℚ
  deriving DecidableEq

/-- HotAndEarnings' Sparkline tick, per point:
`e = 1 - Math.pow(1 - t, 3); { x: fr.x + (to.x - fr.x) * e, y: fr.y + (to.y - fr.y) * e }`. -/
def sparklineMix (fr toP : Pt) (startT dur now : ℚ) : Pt :=
  let t := min 1 ((now - startT) / dur)
  let e := 1 - (1 - t) ^ 3
  ⟨fr.x + (toP.x - fr.x) * e, fr.y + (toP.y - fr.y) * e⟩

/-- Modelled from the spec's words for comparison (refinement target): the
value a scalar tween should emit at normalized time `t`, namely
`from + (to - from) * (1 - (1 - t)^3)`. -/
def specEasedValue (fromVal toVal t : ℚ) : ℚ :=
  fromVal + (toVal - fromVal) * (1 - (1 - t) ^ 3)

/-! ### Tweener theorems (C8) -/

/-- Claim C8 counterexample — the shared scalar tween hook
(`hooks/useTweenNumber.js`) does not emit the ease-out cubic value: halfway
through a 450 ms tween from 0 to 8 it emits the linear value 4, while the
ease-out cubic formula gives 7. -/
theorem C8_hook_tween_not_eased :
    ¬ hookTween 0 8 0 450 225 =
        specEasedValue 0 8 (min 1 ((225 - 0) / 450)) := by
  norm_num [hookTween, specEasedValue]

/-- Claim C8 (amended) — the point-set tween (Sparkline) and CompareMode's local
scalar tween both emit exactly `from + (to - from) * (1 - (1 - t)^3)` at
normalized time `t = min(1, (now - start)/duration)`; the shared scalar hook
`useTweenNumber.js`, however, emits the linear value `from + (to - from) * t`
with no easing. -/
theorem C8_easing_comparison (fromVal toVal startT dur now : ℚ) (fr toP : Pt) :
    compareTween fromVal toVal startT dur now =
      specEasedValue fromVal toVal (min 1 ((now - startT) / dur)) ∧
    (sparklineMix fr toP startT dur now).x =
      specEasedValue fr.x toP.x (min 1 ((now - startT) / dur)) ∧
    (sparklineMix fr toP startT dur now).y =
      specEasedValue fr.y toP.y (min 1 ((now - startT) / dur)) ∧
    hookTween fromVal toVal startT dur now =
      fromVal + (toVal - fromVal) * min 1 ((now - startT) / dur) := by
  refine ⟨rfl, rfl, rfl, rfl⟩

/-! ### CoordinateMapper (`yForVal` in `InteractivePriceChart` / CompareMode's
`InteractiveChart`)

```js
const min = Math.min(...windowData);
const max = Math.max(...windowData);
const range = max - min || 1;
const yForVal = (v) => pad + h - ((v - min) / range) * h;
```
with `pad = 10` and `h = height - pad * 2`. -/

/-- Source `Math.min(...arr)` over the visible window (the render path guarantees at
least two points; the empty case, `+Infinity` in JS, is outside the model). -/
def chartMin : List ℚ → ℚ
  | [] => 0
  | x :: xs => xs.foldl min x

/-- Source `Math.max(...arr)` over the visible window. -/
def chartMax : List ℚ → ℚ
  | [] => 0
  | x :: xs => xs.foldl max x

/-- Source `range = max - min || 1`: a zero span (flat window) is replaced by 1. -/
def chartRange (l : List ℚ) : ℚ :=
  if chartMax l - chartMin l = 0 then 1 else chartMax l - chartMin l

/-- Source `yForVal = (v) => pad + h - ((v - min) / range) * h` with `pad = 10`,
`h = height - pad * 2`, over window contents `l`. -/
def yForVal (height : ℚ) (l : List ℚ) (v : ℚ) : ℚ :=
  let pad : ℚ := 10
  let h := height - pad * 2
  pad + h - ((v - chartMin l) / chartRange l) * h

theorem foldl_min_all_eq {l : List ℚ} {a : ℚ} (h : ∀ y ∈ l, y = a) :
    l.foldl min a = a := by
  induction l with
  | nil => rfl
  | cons x xs ih =>
    have hx : x = a := h x (by simp)
    rw [List.foldl_cons, hx, min_self]
    exact ih fun y hy => h y (by simp [hy])

theorem foldl_max_all_eq {l : List ℚ} {a : ℚ} (h : ∀ y ∈ l, y = a) :
    l.foldl max a = a := by
  induction l with
  | nil => rfl
  | cons x xs ih =>
    have hx : x = a := h x (by simp)
    rw [List.foldl_cons, hx, max_self]
    exact ih fun y hy => h y (by simp [hy])

/-- Claim C9 — on a flat window (all visible values equal), the mapper
substitutes `range = 1`, so `yForVal` is total (no division by zero occurs),
and every window value is mapped to the same pixel row `pad + h`
(`= 10 + (height - 20)`), whatever the window contents are. -/
theorem C9_flat_window_range_one (height : ℚ) (l : List ℚ)
    (hne : l ≠ []) (hflat : ∀ x ∈ l, ∀ y ∈ l, x = y) :
    chartRange l = 1 ∧ ∀ v ∈ l, yForVal height l v = 10 + (height - 10 * 2) := by
  obtain ⟨a, xs, rfl⟩ : ∃ a xs, l = a :: xs := by
    cases l with
    | nil => exact absurd rfl hne
    | cons a xs => exact ⟨a, xs, rfl⟩
  have hall : ∀ y ∈ xs, y = a := by
    intro y hy
    exact hflat y (by simp [hy]) a (by simp)
  have hmin : chartMin (a :: xs) = a := foldl_min_all_eq hall
  have hmax : chartMax (a :: xs) = a := foldl_max_all_eq hall
  have hrange : chartRange (a :: xs) = 1 := by
    unfold chartRange
    rw [hmin, hmax]
    simp
  refine ⟨hrange, ?_⟩
  intro v hv
  have hva : v = a := hflat v hv a (by simp)
  unfold yForVal
  rw [hrange, hmin, hva]
  ring

/-- Witness for C9: the flat two-point window `[3, 3]` at height 80 maps both
values to pixel row 70 = 10 + (80 - 20). -/
theorem C9_flat_window_range_one_witness :
    ([3, 3] : List ℚ) ≠ [] ∧
    chartRange [3, 3] = 1 ∧
    ∀ v ∈ ([3, 3] : List ℚ), yForVal 80 [3, 3] v = 10 + (80 - 10 * 2) := by
  have h := C9_flat_window_range_one 80 [3, 3] (by simp)
    (by intro x hx y hy; simp at hx hy; rw [hx, hy])
  exact ⟨by simp, h.1, h.2⟩

/-! ### SeriesAligner (App.jsx: `closeByDate`, `histByDate`/`histPred`,
`basePastLabels`, `pastLabels`, `futureLabels`, `pastRows`, `futureRows`,
`avpRows`)

The calendar-string codecs `asLocalDate` / `fmtLocalISO` (JS `Date` parsing and
formatting) are passed in as parameters `parse : String → ℤ` / `fmt : ℤ → String`;
none of the merge-structure claims depend on their values. -/

/-- One element of `historyRows` (backtest payload):
`{ date, actual: number|null, pred: { [model]: number } }`. -/
structure HistoryRow where
  date : String
  actual : Option ℚ
  pred : List (String × ℚ)
  deriving DecidableEq

/-- One element of `results` (forward forecast payload):
`{ model, predictions: number[] }`. -/
structure ForecastResult where
  model : String
  predictions : List ℚ
  deriving DecidableEq

/-- Row partition marker (`kind: "past" | "future"`). -/
inductive RowKind
  | past
  | future
  deriving DecidableEq

/-- A merged table row as built for `avpRows`:
`{ date, actual, perModel, kind }`, with `perModel` listed in `results` order. -/
structure MergedRow where
  date : String
  actual : Option ℚ
  perModel : List (Option ℚ)
  kind : RowKind
  deriving DecidableEq

/-- The four independently-fetched inputs the merge reads
(`closeDates`, `closes`, `historyRows`, `results`). -/
structure MergeInput where
  closeDates : List String
  closes : List ℚ
  historyRows : List HistoryRow
  results : List ForecastResult
  deriving DecidableEq

/-- Lookup in a JS object built by sequential assignment: the *last* write for
a key wins. -/
def lookupLast {α : Type} (k : String) (l : List (String × α)) : Option α :=
  l.reverse.lookup k

/-- Source `closeByDate`: date-key → close, over `min(closeDates.length, closes.length)`
pairs (finiteness filtering is vacuous over `ℚ`). -/
def closeByDate (inp : MergeInput) (k : String) : Option ℚ :=
  lookupLast k ((inp.closeDates.map dkey).zip inp.closes)

/-- Source `histByDate`: date-key → backtest row (`byDate[dk] = r`). -/
def histByDate (inp : MergeInput) (k : String) : Option HistoryRow :=
  lookupLast k (inp.historyRows.map fun r => (dkey r.date, r))

/-- The per-row model map `perModel[normModel(m)] = Number(v)`. -/
def predMap (r : HistoryRow) : List (String × ℚ) :=
  r.pred.map fun p => (normModel p.1, p.2)

/-- Source `histPred?.[dk]?.[mKey]`: backtest prediction for (date-key, model-key). -/
def histPredAt (inp : MergeInput) (k m : String) : Option ℚ :=
  match lookupLast k (inp.historyRows.map fun r => (dkey r.date, predMap r)) with
  | none => none
  | some pm => lookupLast m pm

/-- Source `histDates = historyRows.map((r) => dkey(r.date))`. -/
def histDates (inp : MergeInput) : List String :=
  inp.historyRows.map fun r => dkey r.date

/-- Source `lastCloseISO = closeDates.length ? dkey(closeDates[closeDates.length - 1]) : null`. -/
def lastCloseISO (inp : MergeInput) : Option String :=
  inp.closeDates.getLast?.map dkey

/-- Source `const pastDaysToShow = 10`. -/
def pastDaysToShow : ℕ := 10

/-- Source `basePastLabels`: clip history dates to those `<=` the last close date when
both exist (JS truthiness: a `null` or empty `lastCloseISO` is falsy), else
prefer history dates, else close dates. -/
def basePastLabels (inp : MergeInput) : List String :=
  let hd := histDates inp
  match lastCloseISO inp with
  | some L =>
    if hd.length ≠ 0 ∧ L ≠ "" then hd.filter fun iso => strLe (dkey iso) L
    else if hd.length ≠ 0 then hd else inp.closeDates
  | none => if hd.length ≠ 0 then hd else inp.closeDates

/-- Source `pastLabels = basePastLabels.slice(-pastDaysToShow)` (the last up-to-10). -/
def pastLabels (inp : MergeInput) : List String :=
  let b := basePastLabels inp
  b.drop (b.length - pastDaysToShow)

/-- Source `horizon = results?.[0]?.predictions?.length || 0`. -/
def horizon (inp : MergeInput) : ℕ :=
  match inp.results with
  | [] => 0
  | r :: _ => r.predictions.length

/-- Source `lastPastDate`: parse the last past label, else the last close date, else null. -/
def lastPastDate (parse : String → ℤ) (inp : MergeInput) : Option ℤ :=
  match (pastLabels inp).getLast? with
  | some s => some (parse s)
  | none => inp.closeDates.getLast?.map parse

/-- Source `futureLabels`: `horizon` labels; business-day dates off the anchor when it
exists, otherwise relative `+kd` labels. -/
def futureLabels (parse : String → ℤ) (fmt : ℤ → String) (inp : MergeInput) :
    List String :=
  (List.range (horizon inp)).map fun i =>
    match lastPastDate parse inp with
    | none => "+" ++ toString (i + 1) ++ "d"
    | some d => fmt (addBusinessDays d (i + 1))

/-- Source `pastRows`: one row per past label; `actual` prefers the close for that
date, falling back to the backtest row's own `actual`; `perModel` reads the
backtest map per selected model. -/
def pastRows (inp : MergeInput) : List MergedRow :=
  (pastLabels inp).map fun iso =>
    let dk := dkey iso
    let actual :=
      match closeByDate inp dk with
      | some v => some v
      | none =>
        match histByDate inp dk with
        | some row => row.actual
        | none => none
    { date := dk
      actual := actual
      perModel := inp.results.map fun r => histPredAt inp dk (normModel r.model)
      kind := RowKind.past }

/-- Source `futureRows`: one row per future label, `actual: null`, `kind: "future"`,
`perModel` from `r.predictions?.[i] ?? null`. -/
def futureRows (parse : String → ℤ) (fmt : ℤ → String) (inp : MergeInput) :
    List MergedRow :=
  (futureLabels parse fmt inp).enum.map fun p =>
    { date := p.2
      actual := none
      perModel := inp.results.map fun r => r.predictions[p.1]?
      kind := RowKind.future }

/-- Source `avpRows = [...pastRows, ...futureRows]`. -/
def avpRows (parse : String → ℤ) (fmt : ℤ → String) (inp : MergeInput) :
    List MergedRow :=
  pastRows inp ++ futureRows parse fmt inp

/-- Stand-in for `asLocalDate` in concrete evaluations (the merge-row
structure never depends on parsed date values). -/
def parseStub : String → ℤ := fun _ => 0

/-- Stand-in for `fmtLocalISO` in concrete evaluations. -/
def fmtStub : ℤ → String := fun _ => "f"

/-! ### SeriesAligner lemmas -/

theorem pastLabels_length_of_ge (inp : MergeInput)
    (h : pastDaysToShow ≤ (basePastLabels inp).length) :
    (pastLabels inp).length = pastDaysToShow := by
  unfold pastLabels
  rw [List.length_drop]
  omega

theorem futureLabels_length (parse : String → ℤ) (fmt : ℤ → String)
    (inp : MergeInput) : (futureLabels parse fmt inp).length = horizon inp := by
  unfold futureLabels
  rw [List.length_map, List.length_range]

theorem pastRows_length (inp : MergeInput) :
    (pastRows inp).length = (pastLabels inp).length := by
  unfold pastRows
  rw [List.length_map]

theorem futureRows_length (parse : String → ℤ) (fmt : ℤ → String)
    (inp : MergeInput) : (futureRows parse fmt inp).length = horizon inp := by
  unfold futureRows
  rw [List.length_map, List.enum_length, futureLabels_length]

/-- Claim C2 — with `pastDaysToShow = 10` past labels available and a 7-step
forecast horizon, the merged array has exactly 17 rows; the first 10 have
`kind = past`, and rows 10..16 have `kind = future` with `actual = null`. -/
theorem C2_merge_partition_boundary (parse : String → ℤ) (fmt : ℤ → String)
    (inp : MergeInput) (h10 : 10 ≤ (basePastLabels inp).length)
    (h7 : horizon inp = 7) :
    (avpRows parse fmt inp).length = 17 ∧
    (∀ r ∈ (avpRows parse fmt inp).take 10, r.kind = RowKind.past) ∧
    (∀ r ∈ (avpRows parse fmt inp).drop 10,
      r.kind = RowKind.future ∧ r.actual = none) := by
  have hpl : (pastLabels inp).length = 10 := pastLabels_length_of_ge inp h10
  have hpr : (pastRows inp).length = 10 := by rw [pastRows_length, hpl]
  have hfr : (futureRows parse fmt inp).length = 7 := by
    rw [futureRows_length, h7]
  refine ⟨?_, ?_, ?_⟩
  · unfold avpRows
    rw [List.length_append, hpr, hfr]
  · intro r hr
    have htake : (avpRows parse fmt inp).take 10 = pastRows inp := by
      unfold avpRows
      rw [← hpr, List.take_left]
    rw [htake] at hr
    unfold pastRows at hr
    obtain ⟨iso, -, rfl⟩ := List.mem_map.mp hr
    rfl
  · intro r hr
    have hdrop : (avpRows parse fmt inp).drop 10 = futureRows parse fmt inp := by
      unfold avpRows
      rw [← hpr, List.drop_left]
    rw [hdrop] at hr
    unfold futureRows at hr
    obtain ⟨p, -, rfl⟩ := List.mem_map.mp hr
    exact ⟨rfl, rfl⟩

/-- A concrete input with ten backtest dates and a 7-step forecast. -/
def inpC2 : MergeInput :=
  { closeDates := []
    closes := []
    historyRows :=
      ["d0", "d1", "d2", "d3", "d4", "d5", "d6", "d7", "d8", "d9"].map
        fun s => { date := s, actual := none, pred := [] }
    results := [{ model := "LSTM", predictions := [1, 2, 3, 4, 5, 6, 7] }] }

/-- Witness for C2: on `inpC2` the merged array has 17 rows partitioned 10/7. -/
theorem C2_merge_partition_boundary_witness :
    10 ≤ (basePastLabels inpC2).length ∧ horizon inpC2 = 7 ∧
    ((avpRows parseStub fmtStub inpC2).length = 17 ∧
     (∀ r ∈ (avpRows parseStub fmtStub inpC2).take 10, r.kind = RowKind.past) ∧
     (∀ r ∈ (avpRows parseStub fmtStub inpC2).drop 10,
       r.kind = RowKind.future ∧ r.actual = none)) :=
  ⟨by decide, rfl,
    C2_merge_partition_boundary parseStub fmtStub inpC2 (by decide) rfl⟩

/-- Claim C5 — whenever backtest history dates exist and a (truthy) last close
date exists, `basePastLabels` is exactly the history dates filtered to keys
`<=` that last close date, and consequently every `kind = past` row carries a
date `<=` the latest known actual close date. -/
theorem C5_past_rows_clipped_to_last_close (inp : MergeInput) (L : String)
    (hh : histDates inp ≠ []) (hL : lastCloseISO inp = some L) (hL' : L ≠ "") :
    basePastLabels inp =
      (histDates inp).filter (fun iso => strLe (dkey iso) L) ∧
    ∀ r ∈ pastRows inp, strLe r.date L = true := by
  have hlen : (histDates inp).length ≠ 0 := by
    intro h0
    exact hh (List.length_eq_zero.mp h0)
  have hbase : basePastLabels inp =
      (histDates inp).filter (fun iso => strLe (dkey iso) L) := by
    unfold basePastLabels
    rw [hL]
    dsimp only
    split_ifs with hcond
    · rfl
    · exact absurd ⟨hlen, hL'⟩ hcond
  refine ⟨hbase, ?_⟩
  intro r hr
  unfold pastRows at hr
  obtain ⟨iso, hiso, rfl⟩ := List.mem_map.mp hr
  have hiso' : iso ∈ basePastLabels inp := by
    unfold pastLabels at hiso
    exact List.mem_of_mem_drop hiso
  rw [hbase] at hiso'
  exact (List.mem_filter.mp hiso').2

/-- A concrete input with one backtest date and one later close date. -/
def inpC5 : MergeInput :=
  { closeDates := ["c1"]
    closes := [5]
    historyRows := [{ date := "a1", actual := none, pred := [] }]
    results := [] }

/-- Witness for C5 on `inpC5` (history date "a1" ≤ last close "c1"). -/
theorem C5_past_rows_clipped_to_last_close_witness :
    histDates inpC5 ≠ [] ∧ lastCloseISO inpC5 = some ("c1") ∧ ("c1" : String) ≠ "" ∧
    (basePastLabels inpC5 =
      (histDates inpC5).filter (fun iso => strLe (dkey iso) ("c1")) ∧
     ∀ r ∈ pastRows inpC5, strLe r.date ("c1") = true) :=
  ⟨by decide, rfl, by decide,
    C5_past_rows_clipped_to_last_close inpC5 ("c1") (by decide) rfl (by decide)⟩

/-- A merge input whose actual price source is entirely empty but which still
carries one forward forecast. -/
def inpC7 : MergeInput :=
  { closeDates := []
    closes := []
    historyRows := []
    results := [{ model := "LSTM", predictions := [111] }] }

/-- Claim C7 counterexample — an entirely empty actual source does *not* make the
merge return an empty array: with empty closes, empty close dates and empty
backtest history but one forecast, `avpRows` still contains a future row. -/
theorem C7_empty_actual_not_empty_merge :
    inpC7.closes = [] ∧ inpC7.closeDates = [] ∧
    avpRows parseStub fmtStub inpC7 ≠ [] := by
  refine ⟨rfl, rfl, ?_⟩
  decide

/-- Claim C7 (amended) — the merge is total and never throws for missing
optional sources: for every input (including empty ones) it returns
`pastRows ++ futureRows`, of length `|pastLabels| + horizon`; the result is
empty when the actual source *and* the optional sources (backtest history,
forecasts) are all empty, but an empty actual source alone does not force an
empty result (the future partition still comes from the forecasts). -/
theorem C7_merge_total_empty_case (parse : String → ℤ) (fmt : ℤ → String)
    (inp : MergeInput) :
    (avpRows parse fmt inp).length = (pastLabels inp).length + horizon inp ∧
    (inp.closeDates = [] → inp.historyRows = [] → inp.results = [] →
      avpRows parse fmt inp = []) := by
  constructor
  · unfold avpRows
    rw [List.length_append, pastRows_length, futureRows_length]
  · intro hcd hhr hres
    have hbase : basePastLabels inp = [] := by
      unfold basePastLabels lastCloseISO histDates
      rw [hcd, hhr]
      rfl
    have hpl : pastLabels inp = [] := by
      unfold pastLabels
      rw [hbase]
      rfl
    have hhor : horizon inp = 0 := by
      unfold horizon
      rw [hres]
    unfold avpRows pastRows futureRows futureLabels
    rw [hpl, hhor]
    rfl

/-- Witness for C7 (amended) at the all-empty input. -/
theorem C7_merge_total_empty_case_witness :
    (avpRows parseStub fmtStub ⟨[], [], [], []⟩).length =
      (pastLabels ⟨[], [], [], []⟩).length + horizon ⟨[], [], [], []⟩ ∧
    avpRows parseStub fmtStub ⟨[], [], [], []⟩ = [] := by
  have h := C7_merge_total_empty_case parseStub fmtStub ⟨[], [], [], []⟩
  exact ⟨h.1, h.2 rfl rfl rfl⟩

/-! ### ViewportController (`InteractivePriceChart` in App.jsx: `view` state,
`onMove` drag-pan, `onWheel` zoom)

State is the raw `view = {start, end}` pair (`end` is a Lean keyword, hence the
field name `endI`). The render path recomputes the effective window as
`vStart = clamp(view.start, 0, n-2)`, `vEnd = clamp(view.end, vStart+1, n-1)`.
A `pan` event carries the drag fraction `dx / w` (any rational — the pointer
may travel arbitrarily far); a `zoom` event carries the normalized pointer
position `t = (x - pad) / w` before its in-handler clamp to `[0, 1]`, plus the
wheel direction (`zoomIn ↔ Math.sign(e.deltaY) < 0`). -/

/-- The raw `view` React state `{ start, end }`. -/
structure View where
  start : ℤ
  endI : ℤ
  deriving DecidableEq

/-- Source `useState({ start: 0, end: Math.max(0, data.length - 1) })`. -/
def initView (n : ℕ) : View := ⟨0, max 0 ((n : ℤ) - 1)⟩

/-- Source `vStart = clamp(view.start, 0, data.length - 2)`. -/
def vStartOf (n : ℕ) (v : View) : ℤ := jsClampI v.start 0 ((n : ℤ) - 2)

/-- Source `vEnd = clamp(view.end, vStart + 1, data.length - 1)`. -/
def vEndOf (n : ℕ) (v : View) : ℤ :=
  jsClampI v.endI (vStartOf n v + 1) ((n : ℤ) - 1)

/-- The boundary-clamp fragment shared verbatim by `onMove` and `onWheel`:
`if (newStart < 0) { newStart = 0; newEnd = size; }`
`if (newEnd > data.length - 1) { newEnd = data.length - 1; newStart = newEnd - size; }`
(two *sequential* ifs: the second tests the possibly-updated `newEnd`). -/
def slideIntoDomain (n : ℕ) (size newStart newEnd : ℤ) : View :=
  let p := if newStart < 0 then ((0 : ℤ), size) else (newStart, newEnd)
  if p.2 > (n : ℤ) - 1 then ⟨(n : ℤ) - 1 - size, (n : ℤ) - 1⟩ else ⟨p.1, p.2⟩

/-- Source `onMove` while dragging: shift the window captured at mousedown by
`Math.round(frac * windowSize)` indices, then slide back inside the domain. -/
def pan (n : ℕ) (v : View) (frac : ℚ) : View :=
  let windowSize := v.endI - v.start
  let shift := jsRound (frac * (windowSize : ℚ))
  let newStart := v.start - shift
  let newEnd := newStart + windowSize
  slideIntoDomain n windowSize newStart newEnd

/-- Source `zoomStep = Math.max(1, Math.round(windowSize * 0.15))`. -/
def zoomStepOf (w : ℤ) : ℤ := max 1 (jsRound ((w : ℚ) * (15 / 100)))

/-- Source `onWheel`: resize the effective window by 15% (rounded, at least one
index), clamp the size to `[5, n-1]`, re-anchor so the focus keeps its
relative position, then slide back inside the domain. -/
def zoom (n : ℕ) (v : View) (t : ℚ) (zoomIn : Bool) : View :=
  let vS := vStartOf n v
  let vE := vEndOf n v
  let tc := jsClampQ t 0 1
  let focusIdx := jsRound ((vS : ℚ) + tc * ((vE : ℚ) - (vS : ℚ)))
  let windowSize := vE - vS
  let zoomStep := zoomStepOf windowSize
  let rawSize := if zoomIn then windowSize - zoomStep else windowSize + zoomStep
  let newSize := jsClampI rawSize 5 ((n : ℤ) - 1)
  let newStart :=
    focusIdx -
      jsRound (((focusIdx : ℚ) - (vS : ℚ)) * ((newSize : ℚ) / (windowSize : ℚ)))
  let newEnd := newStart + newSize
  slideIntoDomain n newSize newStart newEnd

/-- A user interaction on the chart: a drag-pan move or a wheel zoom. -/
inductive ChartEvent
  | pan (frac : ℚ)
  | zoom (t : ℚ) (zoomIn : Bool)

/-- Apply one interaction to the view state. -/
def chartStep (n : ℕ) (v : View) : ChartEvent → View
  | ChartEvent.pan frac => pan n v frac
  | ChartEvent.zoom t zi => zoom n v t zi

/-- Apply a finite interaction sequence. -/
def chartRun (n : ℕ) (v : View) (es : List ChartEvent) : View :=
  es.foldl (chartStep n) v

/-- The §3 viewport invariant: `0 ≤ start < end ≤ n-1` and `end - start ≥ 5`. -/
def ViewInv (n : ℕ) (v : View) : Prop :=
  0 ≤ v.start ∧ v.start < v.endI ∧ v.endI ≤ (n : ℤ) - 1 ∧ 5 ≤ v.endI - v.start

instance (n : ℕ) (v : View) : Decidable (ViewInv n v) := by
  unfold ViewInv
  infer_instance

/-! ### ViewportController lemmas -/

theorem jsClampI_eq_self {v a b : ℤ} (h1 : a ≤ v) (h2 : v ≤ b) :
    jsClampI v a b = v := by
  unfold jsClampI
  rw [min_eq_right h2, max_eq_right h1]

theorem jsClampI_mem {v a b : ℤ} (hab : a ≤ b) :
    a ≤ jsClampI v a b ∧ jsClampI v a b ≤ b := by
  unfold jsClampI
  exact ⟨le_max_left a _, max_le hab (min_le_left b v)⟩

theorem slideIntoDomain_inv {n : ℕ} {size ns ne : ℤ}
    (h5 : 5 ≤ size) (hsz : size ≤ (n : ℤ) - 1) (hne : ne = ns + size) :
    ViewInv n (slideIntoDomain n size ns ne) := by
  unfold slideIntoDomain ViewInv
  dsimp only
  split_ifs <;> dsimp only <;> omega

theorem slideIntoDomain_id {n : ℕ} {size ns ne : ℤ}
    (h0 : 0 ≤ ns) (h1 : ne ≤ (n : ℤ) - 1) :
    slideIntoDomain n size ns ne = ⟨ns, ne⟩ := by
  unfold slideIntoDomain
  rw [if_neg (show ¬ ns < 0 by omega)]
  dsimp only
  rw [if_neg (show ¬ (ne > (n : ℤ) - 1) by omega)]

theorem pan_preserves {n : ℕ} {v : View} (frac : ℚ) (h : ViewInv n v) :
    ViewInv n (pan n v frac) := by
  obtain ⟨h0, h1, h2, h3⟩ := h
  unfold pan
  exact slideIntoDomain_inv (by omega) (by omega) rfl

theorem vStartOf_eq {n : ℕ} {v : View} (h : ViewInv n v) :
    vStartOf n v = v.start := by
  obtain ⟨h0, h1, h2, h3⟩ := h
  exact jsClampI_eq_self h0 (by omega)

theorem vEndOf_eq {n : ℕ} {v : View} (h : ViewInv n v) :
    vEndOf n v = v.endI := by
  obtain ⟨h0, h1, h2, h3⟩ := h
  rw [vEndOf, vStartOf_eq ⟨h0, h1, h2, h3⟩]
  exact jsClampI_eq_self (by omega) (by omega)

theorem zoom_preserves {n : ℕ} {v : View} (t : ℚ) (zi : Bool)
    (hn : 6 ≤ n) (_h : ViewInv n v) : ViewInv n (zoom n v t zi) := by
  have h51 : (5 : ℤ) ≤ (n : ℤ) - 1 := by
    omega
  have hsz := jsClampI_mem (b := (n : ℤ) - 1)
    (v := if zi then (vEndOf n v - vStartOf n v) -
            zoomStepOf (vEndOf n v - vStartOf n v)
          else (vEndOf n v - vStartOf n v) +
            zoomStepOf (vEndOf n v - vStartOf n v))
    h51
  unfold zoom
  exact slideIntoDomain_inv hsz.1 hsz.2 rfl

theorem chartRun_preserves {n : ℕ} (hn : 6 ≤ n) {v : View}
    (h : ViewInv n v) (es : List ChartEvent) : ViewInv n (chartRun n v es) := by
  induction es generalizing v with
  | nil => exact h
  | cons e es ih =>
    cases e with
    | pan frac => exact ih (pan_preserves frac h)
    | zoom t zi => exact ih (zoom_preserves t zi hn h)

/-- Claim C1 counterexample — for a close series of length `n = 3` the claimed
invariant fails: the very first pan transition (a zero-distance drag move)
leaves the window at `{start: 0, end: 2}`, whose size `2` is below the claimed
minimum `end - start ≥ 5`. -/
theorem C1_small_domain_violates_invariant :
    chartRun 3 (initView 3) [ChartEvent.pan 0] = ⟨0, 2⟩ ∧
    ¬ ViewInv 3 (chartRun 3 (initView 3) [ChartEvent.pan 0]) := by
  have hrun : chartRun 3 (initView 3) [ChartEvent.pan 0] = ⟨0, 2⟩ := by
    show pan 3 (initView 3) 0 = ⟨0, 2⟩
    unfold pan initView slideIntoDomain
    norm_num [jsRound]
  refine ⟨hrun, ?_⟩
  rw [hrun]
  intro hinv
  obtain ⟨-, -, -, h5⟩ := hinv
  norm_num at h5

/-- Claim C1 (amended) — for every close series of length `n ≥ 6`, after every
finite sequence of pan and zoom transitions from the initial full-domain
window, the viewport satisfies `0 ≤ start < end ≤ n-1` and `end - start ≥ 5`
(in particular no transition can produce `start ≥ end`). For `n < 6` the
minimum-size bound is unsatisfiable over the domain and already fails after a
single pan. -/
theorem C1_viewport_invariant (n : ℕ) (es : List ChartEvent) (hn : 6 ≤ n) :
    ViewInv n (chartRun n (initView n) es) := by
  have hinit : ViewInv n (initView n) := by
    unfold ViewInv initView
    have hmax : max 0 ((n : ℤ) - 1) = (n : ℤ) - 1 :=
      max_eq_right (by omega)
    dsimp only
    rw [hmax]
    omega
  exact chartRun_preserves hn hinit es

/-- Witness for C1 (amended) at `n = 6` with a pan and a zoom-in. -/
theorem C1_viewport_invariant_witness :
    6 ≤ 6 ∧
    ViewInv 6 (chartRun 6 (initView 6)
      [ChartEvent.pan 1, ChartEvent.zoom (1/2) true]) :=
  ⟨by omega,
    C1_viewport_invariant 6 [ChartEvent.pan 1, ChartEvent.zoom (1/2) true]
      (by omega)⟩

/-- Claim C6 counterexample — zoom-in then zoom-out at the same focus can move a
bound by 2 indices: on the full window over `n = 101` (window `{0, 100}`),
one zoom-in at focus index 0 gives `{0, 85}` (step 15), and the matching
zoom-out gives `{0, 98}` (step 13), so `end` ends 2 away from its original
value — more than the claimed 1-index tolerance. -/
theorem C6_zoom_roundtrip_deviates :
    initView 101 = ⟨0, 100⟩ ∧
    chartRun 101 (initView 101)
      [ChartEvent.zoom 0 true, ChartEvent.zoom 0 false] = ⟨0, 98⟩ ∧
    ¬ ((100 : ℤ) - 98 ≤ 1) := by
  have hinit : initView 101 = ⟨0, 100⟩ := by
    unfold initView
    norm_num
  refine ⟨hinit, ?_, by norm_num⟩
  show zoom 101 (zoom 101 (initView 101) 0 true) 0 false = ⟨0, 98⟩
  rw [hinit]
  have h1 : zoom 101 ⟨0, 100⟩ 0 true = ⟨0, 85⟩ := by
    have hvS : vStartOf 101 ⟨0, 100⟩ = 0 := by
      unfold vStartOf jsClampI
      dsimp only
      omega
    have hvE : vEndOf 101 ⟨0, 100⟩ = 100 := by
      unfold vEndOf vStartOf jsClampI
      dsimp only
      omega
    unfold zoom
    rw [hvS, hvE]
    norm_num [jsClampQ, jsClampI, jsRound, zoomStepOf, min_def, max_def, slideIntoDomain]
  rw [h1]
  have hvS2 : vStartOf 101 ⟨0, 85⟩ = 0 := by
    unfold vStartOf jsClampI
    dsimp only
    omega
  have hvE2 : vEndOf 101 ⟨0, 85⟩ = 85 := by
    unfold vEndOf vStartOf jsClampI
    dsimp only
    omega
  unfold zoom
  rw [hvS2, hvE2]
  norm_num [jsClampQ, jsClampI, jsRound, zoomStepOf, min_def, max_def, slideIntoDomain]

/-! ### Rounding arithmetic for the focus-preserving zoom (C6)

`Math.round` facts and the two-zoom rounding estimate: a zoom-in of step `st`
followed by a zoom-out whose step matches moves the re-anchored start by at
most one index. -/

theorem jsRound_le (x : ℚ) : (jsRound x : ℚ) ≤ x + 1/2 :=
  Int.floor_le _

theorem jsRound_ge (x : ℚ) : x - 1/2 ≤ (jsRound x : ℚ) := by
  have h := Int.sub_one_lt_floor (x + 1/2)
  unfold jsRound
  linarith

theorem jsRound_mono {x y : ℚ} (h : x ≤ y) : jsRound x ≤ jsRound y :=
  Int.floor_le_floor (by linarith)

theorem jsRound_intCast (z : ℤ) : jsRound (z : ℚ) = z := by
  unfold jsRound
  rw [Int.floor_int_add]
  norm_num

theorem jsRound_int_add (z : ℤ) (x : ℚ) : jsRound ((z : ℚ) + x) = z + jsRound x := by
  unfold jsRound
  rw [add_assoc, Int.floor_int_add]

theorem jsClampQ01 (t : ℚ) : 0 ≤ jsClampQ t 0 1 ∧ jsClampQ t 0 1 ≤ 1 := by
  unfold jsClampQ
  constructor
  · exact le_max_left 0 _
  · exact max_le (by norm_num) (min_le_left 1 t)

theorem zoom_spec {n : ℕ} {v : View} (t : ℚ) (zi : Bool) {Sz : ℤ}
    (hinv : ViewInv n v)
    (hSz : (if zi then (v.endI - v.start) - zoomStepOf (v.endI - v.start)
            else (v.endI - v.start) + zoomStepOf (v.endI - v.start)) = Sz)
    (hSz5 : 5 ≤ Sz) (hSzn : Sz ≤ (n : ℤ) - 1) :
    zoom n v t zi =
      slideIntoDomain n Sz
        (v.start + jsRound (jsClampQ t 0 1 * ((v.endI - v.start : ℤ) : ℚ)) -
          jsRound (((jsRound (jsClampQ t 0 1 * ((v.endI - v.start : ℤ) : ℚ)) : ℚ)) *
            ((Sz : ℚ) / ((v.endI - v.start : ℤ) : ℚ))))
        (v.start + jsRound (jsClampQ t 0 1 * ((v.endI - v.start : ℤ) : ℚ)) -
          jsRound (((jsRound (jsClampQ t 0 1 * ((v.endI - v.start : ℤ) : ℚ)) : ℚ)) *
            ((Sz : ℚ) / ((v.endI - v.start : ℤ) : ℚ))) + Sz) := by
  unfold zoom
  rw [vStartOf_eq hinv, vEndOf_eq hinv]
  dsimp only
  have hfoc : jsRound ((v.start : ℚ) + jsClampQ t 0 1 * ((v.endI : ℚ) - (v.start : ℚ))) =
      v.start + jsRound (jsClampQ t 0 1 * ((v.endI - v.start : ℤ) : ℚ)) := by
    rw [show ((v.endI : ℚ) - (v.start : ℚ)) = ((v.endI - v.start : ℤ) : ℚ) by push_cast; ring]
    exact jsRound_int_add _ _
  rw [hfoc, hSz]
  rw [jsClampI_eq_self hSz5 hSzn]
  rw [show ((v.start + jsRound (jsClampQ t 0 1 * ((v.endI - v.start : ℤ) : ℚ)) : ℤ) : ℚ) -
      (v.start : ℚ) = ((jsRound (jsClampQ t 0 1 * ((v.endI - v.start : ℤ) : ℚ)) : ℤ) : ℚ)
    by push_cast; ring]


theorem jsRound_zero : jsRound 0 = 0 := by
  unfold jsRound
  norm_num

/- The rounding core of the zoom round trip: with window size `W`, zoom step
`st` (at least 1, at most a quarter of `W`), shrunken size `S = W - st`,
focus fraction `tc` in `[0,1]`, and the four rounded quantities produced by
the two `onWheel` runs (`A`, `B` the focus offsets, `R₁`, `R₂` the
re-anchoring offsets), the zoom-in re-anchoring stays inside the window and
the total start drift `A + B - R₁ - R₂` is at most one index either way. -/
set_option maxHeartbeats 3200000 in
theorem roundtrip_core (W st S A B R₁ R₂ : ℤ) (tc : ℚ)
    (hW5 : 5 ≤ W) (hst1 : 1 ≤ st) (h4st : 4 * st ≤ W) (hS : S = W - st)
    (hS5 : 5 ≤ S) (htc0 : 0 ≤ tc) (htc1 : tc ≤ 1)
    (hA : A = jsRound (tc * (W : ℚ)))
    (hB : B = jsRound (tc * (S : ℚ)))
    (hR₁ : R₁ = jsRound ((A : ℚ) * ((S : ℚ) / (W : ℚ))))
    (hR₂ : R₂ = jsRound ((B : ℚ) * ((W : ℚ) / (S : ℚ)))) :
    0 ≤ A ∧ A ≤ W ∧ 0 ≤ R₁ ∧ R₁ ≤ A ∧ A - st ≤ R₁ ∧
    -1 ≤ A + B - R₁ - R₂ ∧ A + B - R₁ - R₂ ≤ 1 := by
  subst hS
  have hWq : (5:ℚ) ≤ (W:ℚ) := by exact_mod_cast hW5
  have hstq : (1:ℚ) ≤ (st:ℚ) := by exact_mod_cast hst1
  have h4stq : 4*(st:ℚ) ≤ (W:ℚ) := by exact_mod_cast h4st
  have hSq : (5:ℚ) ≤ (W:ℚ) - st := by
    have : ((W - st : ℤ):ℚ) = (W:ℚ) - st := by push_cast; ring
    rw [← this]
    exact_mod_cast hS5
  have hW0 : (0:ℚ) < (W:ℚ) := by linarith
  have hS0 : (0:ℚ) < (W:ℚ) - st := by linarith
  have hst0q : (0:ℚ) ≤ (st:ℚ) := by linarith
  -- A bounds
  have hA0 : 0 ≤ A := by
    rw [hA, ← jsRound_zero]
    exact jsRound_mono (by positivity)
  have hAW : A ≤ W := by
    rw [hA]
    calc jsRound (tc * (W:ℚ)) ≤ jsRound ((W:ℤ):ℚ) := by
          apply jsRound_mono
          nlinarith
    _ = W := jsRound_intCast W
  have hA0q : (0:ℚ) ≤ (A:ℚ) := by exact_mod_cast hA0
  have hAWq : (A:ℚ) ≤ (W:ℚ) := by exact_mod_cast hAW
  -- B bounds
  have hB0 : 0 ≤ B := by
    rw [hB, ← jsRound_zero]
    apply jsRound_mono
    have : ((W - st : ℤ):ℚ) = (W:ℚ) - st := by push_cast; ring
    rw [this]
    nlinarith
  -- rational round bounds
  have hAub : (A:ℚ) ≤ tc * (W:ℚ) + 1/2 := by rw [hA]; exact jsRound_le _
  have hAlb : tc * (W:ℚ) - 1/2 ≤ (A:ℚ) := by rw [hA]; exact jsRound_ge _
  have hBub : (B:ℚ) ≤ tc * ((W:ℚ) - st) + 1/2 := by
    rw [hB]
    have h := jsRound_le (tc * ((W - st : ℤ):ℚ))
    push_cast at h ⊢
    linarith
  have hBlb : tc * ((W:ℚ) - st) - 1/2 ≤ (B:ℚ) := by
    rw [hB]
    have h := jsRound_ge (tc * ((W - st : ℤ):ℚ))
    push_cast at h ⊢
    linarith
  have hR1ub : (R₁:ℚ) ≤ (A:ℚ) * (((W:ℚ) - st) / (W:ℚ)) + 1/2 := by
    rw [hR₁]
    have h := jsRound_le ((A:ℚ) * (((W - st : ℤ):ℚ) / (W:ℚ)))
    push_cast at h ⊢
    linarith
  have hR1lb : (A:ℚ) * (((W:ℚ) - st) / (W:ℚ)) - 1/2 ≤ (R₁:ℚ) := by
    rw [hR₁]
    have h := jsRound_ge ((A:ℚ) * (((W - st : ℤ):ℚ) / (W:ℚ)))
    push_cast at h ⊢
    linarith
  have hR2ub : (R₂:ℚ) ≤ (B:ℚ) * ((W:ℚ) / ((W:ℚ) - st)) + 1/2 := by
    rw [hR₂]
    have h := jsRound_le ((B:ℚ) * ((W:ℚ) / ((W - st : ℤ):ℚ)))
    push_cast at h ⊢
    linarith
  have hR2lb : (B:ℚ) * ((W:ℚ) / ((W:ℚ) - st)) - 1/2 ≤ (R₂:ℚ) := by
    rw [hR₂]
    have h := jsRound_ge ((B:ℚ) * ((W:ℚ) / ((W - st : ℤ):ℚ)))
    push_cast at h ⊢
    linarith
  -- R₁ integer bounds
  have hR1_0 : 0 ≤ R₁ := by
    rw [hR₁, ← jsRound_zero]
    apply jsRound_mono
    have : ((W - st : ℤ):ℚ) = (W:ℚ) - st := by push_cast; ring
    rw [this]
    have := div_nonneg hS0.le hW0.le
    nlinarith
  have hR1_A : R₁ ≤ A := by
    have harg : (A:ℚ) * (((W:ℚ) - st) / (W:ℚ)) ≤ (A:ℚ) := by
      have hd1 : ((W:ℚ) - st) / (W:ℚ) ≤ 1 := by
        rw [div_le_one hW0]
        linarith
      nlinarith
    have h1 : (R₁:ℚ) < (A:ℚ) + 1 := by linarith
    have h2 : R₁ < A + 1 := by exact_mod_cast h1
    omega
  have hR1_lo : A - st ≤ R₁ := by
    have harg : (A:ℚ) - st ≤ (A:ℚ) * (((W:ℚ) - st) / (W:ℚ)) := by
      have key : (A:ℚ) * (((W:ℚ) - st) / (W:ℚ)) - ((A:ℚ) - st) =
          ((st:ℚ) * ((W:ℚ) - A)) / (W:ℚ) := by
        field_simp
        ring
      have hnn : (0:ℚ) ≤ ((st:ℚ) * ((W:ℚ) - A)) / (W:ℚ) :=
        div_nonneg (mul_nonneg hst0q (by linarith)) hW0.le
      linarith
    have h1 : (A:ℚ) - st - 1 < (R₁:ℚ) := by linarith
    have h2 : A - st - 1 < R₁ := by exact_mod_cast h1
    omega
  -- multiplied bounds
  have m1 : (A:ℚ)*((W:ℚ) - st) - (W:ℚ)/2 ≤ (R₁:ℚ)*(W:ℚ) := by
    have h := mul_le_mul_of_nonneg_right hR1lb hW0.le
    have hexp : ((A:ℚ) * (((W:ℚ) - st) / (W:ℚ)) - 1/2) * (W:ℚ) =
        (A:ℚ)*((W:ℚ) - st) - (W:ℚ)/2 := by
      field_simp
      ring
    rw [hexp] at h
    linarith
  have m2 : (R₁:ℚ)*(W:ℚ) ≤ (A:ℚ)*((W:ℚ) - st) + (W:ℚ)/2 := by
    have h := mul_le_mul_of_nonneg_right hR1ub hW0.le
    have hexp : ((A:ℚ) * (((W:ℚ) - st) / (W:ℚ)) + 1/2) * (W:ℚ) =
        (A:ℚ)*((W:ℚ) - st) + (W:ℚ)/2 := by
      field_simp
      ring
    rw [hexp] at h
    linarith
  have m3 : (B:ℚ)*(W:ℚ) - ((W:ℚ) - st)/2 ≤ (R₂:ℚ)*((W:ℚ) - st) := by
    have h := mul_le_mul_of_nonneg_right hR2lb hS0.le
    have hexp : ((B:ℚ) * ((W:ℚ) / ((W:ℚ) - st)) - 1/2) * ((W:ℚ) - st) =
        (B:ℚ)*(W:ℚ) - ((W:ℚ) - st)/2 := by
      field_simp
      ring
    rw [hexp] at h
    linarith
  have m4 : (R₂:ℚ)*((W:ℚ) - st) ≤ (B:ℚ)*(W:ℚ) + ((W:ℚ) - st)/2 := by
    have h := mul_le_mul_of_nonneg_right hR2ub hS0.le
    have hexp : ((B:ℚ) * ((W:ℚ) / ((W:ℚ) - st)) + 1/2) * ((W:ℚ) - st) =
        (B:ℚ)*(W:ℚ) + ((W:ℚ) - st)/2 := by
      field_simp
      ring
    rw [hexp] at h
    linarith
  -- the two quadratic-in-size estimates
  have q1 : ((A:ℚ) - R₁) * (W:ℚ) ≤ (A:ℚ)*st + (W:ℚ)/2 := by nlinarith [m1]
  have q1' : (A:ℚ)*st - (W:ℚ)/2 ≤ ((A:ℚ) - R₁) * (W:ℚ) := by nlinarith [m2]
  have q3 : ((B:ℚ) - R₂) * ((W:ℚ) - st) ≤ -((B:ℚ)*st) + ((W:ℚ) - st)/2 := by
    nlinarith [m3]
  have q3' : -((B:ℚ)*st) - ((W:ℚ) - st)/2 ≤ ((B:ℚ) - R₂) * ((W:ℚ) - st) := by
    nlinarith [m4]
  have q2 : ((A:ℚ) - R₁) * (W:ℚ) * ((W:ℚ) - st) ≤
      ((A:ℚ)*st + (W:ℚ)/2) * ((W:ℚ) - st) :=
    mul_le_mul_of_nonneg_right q1 hS0.le
  have q2' : ((A:ℚ)*st - (W:ℚ)/2) * ((W:ℚ) - st) ≤
      ((A:ℚ) - R₁) * (W:ℚ) * ((W:ℚ) - st) :=
    mul_le_mul_of_nonneg_right q1' hS0.le
  have q4 : ((B:ℚ) - R₂) * ((W:ℚ) - st) * (W:ℚ) ≤
      (-((B:ℚ)*st) + ((W:ℚ) - st)/2) * (W:ℚ) :=
    mul_le_mul_of_nonneg_right q3 hW0.le
  have q4' : (-((B:ℚ)*st) - ((W:ℚ) - st)/2) * (W:ℚ) ≤
      ((B:ℚ) - R₂) * ((W:ℚ) - st) * (W:ℚ) :=
    mul_le_mul_of_nonneg_right q3' hW0.le
  have q5 : (A:ℚ)*(st*((W:ℚ) - st)) ≤ (tc*(W:ℚ) + 1/2)*(st*((W:ℚ) - st)) :=
    mul_le_mul_of_nonneg_right hAub (mul_nonneg hst0q hS0.le)
  have q5' : (tc*(W:ℚ) - 1/2)*(st*((W:ℚ) - st)) ≤ (A:ℚ)*(st*((W:ℚ) - st)) :=
    mul_le_mul_of_nonneg_right hAlb (mul_nonneg hst0q hS0.le)
  have q6 : (tc*((W:ℚ) - st) - 1/2)*(st*(W:ℚ)) ≤ (B:ℚ)*(st*(W:ℚ)) :=
    mul_le_mul_of_nonneg_right hBlb (mul_nonneg hst0q hW0.le)
  have q6' : (B:ℚ)*(st*(W:ℚ)) ≤ (tc*((W:ℚ) - st) + 1/2)*(st*(W:ℚ)) :=
    mul_le_mul_of_nonneg_right hBub (mul_nonneg hst0q hW0.le)
  have q7 : (st:ℚ)*((W:ℚ) - st) + st*(W:ℚ) < 2*((W:ℚ)*((W:ℚ) - st)) := by
    nlinarith [mul_nonneg (by linarith : (0:ℚ) ≤ (W:ℚ) - 4*st) hS0.le,
      mul_nonneg (by linarith : (0:ℚ) ≤ ((W:ℚ) - st) - 3*st) hW0.le,
      mul_pos hW0 hS0]
  have hpos : (0:ℚ) < (W:ℚ)*((W:ℚ) - st) := mul_pos hW0 hS0
  have final_ub : ((A:ℚ) + B - R₁ - R₂) * ((W:ℚ)*((W:ℚ) - st)) <
      2 * ((W:ℚ)*((W:ℚ) - st)) := by
    nlinarith [q2, q4, q5, q6, q7]
  have final_lb : (-2) * ((W:ℚ)*((W:ℚ) - st)) <
      ((A:ℚ) + B - R₁ - R₂) * ((W:ℚ)*((W:ℚ) - st)) := by
    nlinarith [q2', q4', q5', q6', q7]
  have hDub : (A:ℚ) + B - R₁ - R₂ < 2 := (mul_lt_mul_right hpos).mp final_ub
  have hDlb : (-2:ℚ) < (A:ℚ) + B - R₁ - R₂ := (mul_lt_mul_right hpos).mp final_lb
  have hDubz : A + B - R₁ - R₂ < 2 := by
    have : ((A + B - R₁ - R₂ : ℤ):ℚ) < 2 := by push_cast; linarith
    exact_mod_cast this
  have hDlbz : (-2:ℤ) < A + B - R₁ - R₂ := by
    have : (-2:ℚ) < ((A + B - R₁ - R₂ : ℤ):ℚ) := by push_cast; linarith
    exact_mod_cast this
  exact ⟨hA0, hAW, hR1_0, hR1_A, hR1_lo, by omega, by omega⟩

theorem slideIntoDomain_near {n : ℕ} {W ns s e : ℤ}
    (_hW5 : 5 ≤ W) (hWn : W ≤ (n : ℤ) - 1) (hs0 : 0 ≤ s) (he : e = s + W)
    (hen : e ≤ (n : ℤ) - 1) (hlo : -1 ≤ ns - s) (hhi : ns - s ≤ 1) :
    |(slideIntoDomain n W ns (ns + W)).start - s| ≤ 1 ∧
    |(slideIntoDomain n W ns (ns + W)).endI - e| ≤ 1 := by
  unfold slideIntoDomain
  dsimp only
  constructor <;> rw [abs_le] <;> split_ifs <;> dsimp only <;> constructor <;> omega

/-- Claim C6 (amended) — a single zoom-in followed by a single zoom-out at the
same focus returns a window whose `start` and `end` each differ from the
original by at most 1 index, *provided* the zoom-in is not clamped at the
minimum window size and the zoom-out step (15% of the shrunken size, rounded,
at least 1) equals the zoom-in step. Without the matching-step proviso the
claim fails (see the counterexample: steps 15 vs 13 move `end` by 2), and
repeated mismatched steps drift further. -/
theorem C6_zoom_roundtrip_step_matched (n : ℕ) (v : View) (t : ℚ)
    (hinv : ViewInv n v)
    (hnofloor : 5 ≤ (v.endI - v.start) - zoomStepOf (v.endI - v.start))
    (hmatch : zoomStepOf ((v.endI - v.start) - zoomStepOf (v.endI - v.start)) =
      zoomStepOf (v.endI - v.start)) :
    |(zoom n (zoom n v t true) t false).start - v.start| ≤ 1 ∧
    |(zoom n (zoom n v t true) t false).endI - v.endI| ≤ 1 := by
  obtain ⟨h0, h1, h2, h3⟩ := hinv
  have hst1 : 1 ≤ zoomStepOf (v.endI - v.start) := le_max_left 1 _
  have hjb : 20 * jsRound (((v.endI - v.start : ℤ) : ℚ) * (15/100)) ≤
      3 * (v.endI - v.start) + 10 := by
    have h := jsRound_le (((v.endI - v.start : ℤ) : ℚ) * (15/100))
    have h2 : (20:ℚ) * ((jsRound (((v.endI - v.start : ℤ) : ℚ) * (15/100)) : ℤ) : ℚ) ≤
        3 * ((v.endI - v.start : ℤ) : ℚ) + 10 := by
      push_cast at h ⊢
      linarith
    exact_mod_cast h2
  have h4st : 4 * zoomStepOf (v.endI - v.start) ≤ v.endI - v.start := by
    unfold zoomStepOf
    omega
  have htc := jsClampQ01 t
  -- first zoom (zoom-in): closed form
  have hz1 := @zoom_spec n v t true
    (v.endI - v.start - zoomStepOf (v.endI - v.start))
    ⟨h0, h1, h2, h3⟩ (if_pos rfl) hnofloor (by omega)
  obtain ⟨hA0, hAW, hR10, hR1A, hR1lo, hDlo, hDhi⟩ :=
    roundtrip_core (v.endI - v.start) (zoomStepOf (v.endI - v.start)) _ _ _ _ _
      (jsClampQ t 0 1) (by omega) hst1 h4st rfl hnofloor htc.1 htc.2
      rfl rfl rfl rfl
  have hz1' : zoom n v t true =
      ⟨v.start + jsRound (jsClampQ t 0 1 * ((v.endI - v.start : ℤ) : ℚ)) -
        jsRound ((jsRound (jsClampQ t 0 1 * ((v.endI - v.start : ℤ) : ℚ)) : ℚ) *
          (((v.endI - v.start - zoomStepOf (v.endI - v.start) : ℤ) : ℚ) /
            ((v.endI - v.start : ℤ) : ℚ))),
       v.start + jsRound (jsClampQ t 0 1 * ((v.endI - v.start : ℤ) : ℚ)) -
        jsRound ((jsRound (jsClampQ t 0 1 * ((v.endI - v.start : ℤ) : ℚ)) : ℚ) *
          (((v.endI - v.start - zoomStepOf (v.endI - v.start) : ℤ) : ℚ) /
            ((v.endI - v.start : ℤ) : ℚ))) +
        (v.endI - v.start - zoomStepOf (v.endI - v.start))⟩ := by
    rw [hz1]
    exact slideIntoDomain_id (by omega) (by omega)
  have hv1inv : ViewInv n
      (⟨v.start + jsRound (jsClampQ t 0 1 * ((v.endI - v.start : ℤ) : ℚ)) -
          jsRound ((jsRound (jsClampQ t 0 1 * ((v.endI - v.start : ℤ) : ℚ)) : ℚ) *
            (((v.endI - v.start - zoomStepOf (v.endI - v.start) : ℤ) : ℚ) /
              ((v.endI - v.start : ℤ) : ℚ))),
        v.start + jsRound (jsClampQ t 0 1 * ((v.endI - v.start : ℤ) : ℚ)) -
          jsRound ((jsRound (jsClampQ t 0 1 * ((v.endI - v.start : ℤ) : ℚ)) : ℚ) *
            (((v.endI - v.start - zoomStepOf (v.endI - v.start) : ℤ) : ℚ) /
              ((v.endI - v.start : ℤ) : ℚ))) +
          (v.endI - v.start - zoomStepOf (v.endI - v.start))⟩ : View) := by
    unfold ViewInv
    dsimp only
    exact ⟨by omega, by omega, by omega, by omega⟩
  have hz2 := @zoom_spec n
    ⟨v.start + jsRound (jsClampQ t 0 1 * ((v.endI - v.start : ℤ) : ℚ)) -
          jsRound ((jsRound (jsClampQ t 0 1 * ((v.endI - v.start : ℤ) : ℚ)) : ℚ) *
            (((v.endI - v.start - zoomStepOf (v.endI - v.start) : ℤ) : ℚ) /
              ((v.endI - v.start : ℤ) : ℚ))),
        v.start + jsRound (jsClampQ t 0 1 * ((v.endI - v.start : ℤ) : ℚ)) -
          jsRound ((jsRound (jsClampQ t 0 1 * ((v.endI - v.start : ℤ) : ℚ)) : ℚ) *
            (((v.endI - v.start - zoomStepOf (v.endI - v.start) : ℤ) : ℚ) /
              ((v.endI - v.start : ℤ) : ℚ))) +
          (v.endI - v.start - zoomStepOf (v.endI - v.start))⟩
    t false (v.endI - v.start) hv1inv
    (by
      rw [if_neg Bool.false_ne_true]
      dsimp only
      simp only [add_sub_cancel_left]
      rw [hmatch]
      omega)
    (by omega) (by omega)
  dsimp only at hz2
  simp only [add_sub_cancel_left] at hz2
  rw [hz1', hz2]
  exact slideIntoDomain_near (by omega) (by omega) h0 (by ring) (by omega)
    (by omega) (by omega)


/-- Witness for C6 (amended): window `{0, 7}` over `n = 8` at focus `t = 1/2`;
both zoom steps equal 1 and the round trip stays within one index. -/
theorem C6_zoom_roundtrip_step_matched_witness :
    ViewInv 8 ⟨0, 7⟩ ∧
    5 ≤ ((⟨0, 7⟩ : View).endI - (⟨0, 7⟩ : View).start) -
      zoomStepOf ((⟨0, 7⟩ : View).endI - (⟨0, 7⟩ : View).start) ∧
    zoomStepOf (((⟨0, 7⟩ : View).endI - (⟨0, 7⟩ : View).start) -
        zoomStepOf ((⟨0, 7⟩ : View).endI - (⟨0, 7⟩ : View).start)) =
      zoomStepOf ((⟨0, 7⟩ : View).endI - (⟨0, 7⟩ : View).start) ∧
    (|(zoom 8 (zoom 8 ⟨0, 7⟩ (1/2) true) (1/2) false).start -
        (⟨0, 7⟩ : View).start| ≤ 1 ∧
     |(zoom 8 (zoom 8 ⟨0, 7⟩ (1/2) true) (1/2) false).endI -
        (⟨0, 7⟩ : View).endI| ≤ 1) := by
  have hstep : zoomStepOf ((⟨0, 7⟩ : View).endI - (⟨0, 7⟩ : View).start) = 1 := by
    dsimp only
    norm_num [zoomStepOf, jsRound]
  have hstep6 : zoomStepOf (((⟨0, 7⟩ : View).endI - (⟨0, 7⟩ : View).start) -
      zoomStepOf ((⟨0, 7⟩ : View).endI - (⟨0, 7⟩ : View).start)) = 1 := by
    rw [hstep]
    dsimp only
    norm_num [zoomStepOf, jsRound]
  have h1 : ViewInv 8 (⟨0, 7⟩ : View) := by
    unfold ViewInv
    dsimp only
    norm_num
  have h2 : 5 ≤ ((⟨0, 7⟩ : View).endI - (⟨0, 7⟩ : View).start) -
      zoomStepOf ((⟨0, 7⟩ : View).endI - (⟨0, 7⟩ : View).start) := by
    rw [hstep]
    dsimp only
    norm_num
  have h3 : zoomStepOf (((⟨0, 7⟩ : View).endI - (⟨0, 7⟩ : View).start) -
      zoomStepOf ((⟨0, 7⟩ : View).endI - (⟨0, 7⟩ : View).start)) =
      zoomStepOf ((⟨0, 7⟩ : View).endI - (⟨0, 7⟩ : View).start) := by
    rw [hstep6, hstep]
  exact ⟨h1, h2, h3, C6_zoom_roundtrip_step_matched 8 ⟨0, 7⟩ (1/2) h1 h2 h3⟩


/-! ### RequestArbiter (`loadData` and `reqVer` in App.jsx)

`loadData` starts by minting `myVer = ++reqVer.current` and resetting the
error/loading flags; each of its asynchronous continuations (quote, earnings,
market, closes, backtest history, predictions — success *and* failure paths)
begins with `if (reqVer.current !== myVer) return;` before touching any state,
and the final `Promise.all` continuation clears `loading` under the same
guard. The model is the visible React state plus the `reqVer` counter, driven
by `issue` events (a `loadData` call) and `deliver` events (one continuation
running with its captured token and payload). -/

/-- The quote payload (the fields `loadData` commits). -/
structure Quote where
  ticker : String
  current_price : ℚ
  deriving DecidableEq

/-- The visible state owned by `App`, plus the `reqVer` token counter. -/
structure AppState where
  reqVer : ℕ
  quote : Option Quote
  prevPrice : Option ℚ
  earnings : Option String
  market : Option String
  closes : List ℚ
  closeDates : List String
  historyRows : List HistoryRow
  results : List ForecastResult
  quoteErr : Bool
  earningsErr : Bool
  error : String
  diagnostic : String
  loading : Bool
  deriving DecidableEq

/-- One completed continuation of a `loadData` run: which fetch finished and
with what payload (failure messages carry the interpolated text). -/
inductive Response
  | quoteOk (q : Quote)
  | quoteFail (msg : String)
  | earningsOk (e : String)
  | earningsFail
  | marketOk (m : String)
  | closesOk (dates : List String) (closes : List ℚ) (emptyMsg : String)
  | closesFail (msg : String)
  | histOk (rows : List HistoryRow)
  | histFail
  | predictOk (rs : List ForecastResult) (emptyMsg : String)
  | predictFail (msg : String)
  | allSettled
  deriving DecidableEq

/-- The state writes a continuation performs once its token check passed,
branch by branch from `loadData`. -/
def commit (s : AppState) : Response → AppState
  | Response.quoteOk q =>
      { s with quote := some q, prevPrice := some q.current_price }
  | Response.quoteFail msg =>
      { s with quoteErr := true, diagnostic := jsOrStr s.diagnostic msg }
  | Response.earningsOk e => { s with earnings := some e }
  | Response.earningsFail => { s with earningsErr := true }
  | Response.marketOk m => { s with market := some m }
  | Response.closesOk d c msg =>
      { s with
        diagnostic := if c.isEmpty then jsOrStr s.diagnostic msg else s.diagnostic
        closes := c
        closeDates := d }
  | Response.closesFail msg =>
      { s with diagnostic := jsOrStr s.diagnostic msg }
  | Response.histOk rows => { s with historyRows := rows }
  | Response.histFail => { s with historyRows := [] }
  | Response.predictOk rs msg =>
      { s with
        results := rs
        diagnostic := if rs.isEmpty then jsOrStr s.diagnostic msg else s.diagnostic }
  | Response.predictFail msg =>
      { s with error := msg, diagnostic := jsOrStr s.diagnostic msg }
  | Response.allSettled => { s with loading := false }

/-- A continuation completing with token `tok`:
`if (reqVer.current !== myVer) return;` then commit. -/
def deliver (s : AppState) (tok : ℕ) (r : Response) : AppState :=
  if tok ≠ s.reqVer then s else commit s r

/-- The synchronous head of `loadData`: mint `myVer = ++reqVer.current` and
reset the error/diagnostic/loading flags. -/
def loadDataStart (s : AppState) : AppState :=
  { s with
    reqVer := s.reqVer + 1
    error := ""
    diagnostic := ""
    quoteErr := false
    earningsErr := false
    loading := true }

/-- An event on the app state: a new `loadData` run starting, or one
continuation (tagged with its captured token) completing. -/
inductive AppEvent
  | issue
  | deliver (tok : ℕ) (r : Response)

/-- Apply one event. -/
def appStep (s : AppState) : AppEvent → AppState
  | AppEvent.issue => loadDataStart s
  | AppEvent.deliver tok r => deliver s tok r

/-- Apply a finite event sequence. -/
def appRun (s : AppState) (es : List AppEvent) : AppState :=
  es.foldl appStep s

/-! ### RequestArbiter lemmas -/

theorem commit_reqVer (s : AppState) (r : Response) :
    (commit s r).reqVer = s.reqVer := by
  cases r <;> rfl

theorem deliver_stale (s : AppState) (tok : ℕ) (r : Response)
    (h : tok ≠ s.reqVer) : deliver s tok r = s := by
  unfold deliver
  rw [if_pos h]

theorem appStep_reqVer_mono (s : AppState) (e : AppEvent) :
    s.reqVer ≤ (appStep s e).reqVer := by
  cases e with
  | issue => exact Nat.le_succ _
  | deliver tok r =>
    show s.reqVer ≤ (deliver s tok r).reqVer
    unfold deliver
    split_ifs
    · exact le_refl _
    · rw [commit_reqVer]

theorem appRun_reqVer_mono (s : AppState) (es : List AppEvent) :
    s.reqVer ≤ (appRun s es).reqVer := by
  induction es generalizing s with
  | nil => exact le_refl _
  | cons e es ih =>
    exact le_trans (appStep_reqVer_mono s e) (ih (appStep s e))

/-- Claim C3 — stale-response discard: issue token 1, let any of its responses
land, issue token 2 (before or while token 1's responses are in flight), let
anything further happen; applying *any* payload carrying token 1 is then a
no-op on the entire visible state, because token 1 is strictly below the
latest-issued token and every commit is guarded by
`if (reqVer.current !== myVer) return`. -/
theorem C3_stale_response_discard (s0 : AppState) (es1 es2 : List AppEvent)
    (r : Response) :
    deliver
        (appRun (appStep (appRun (appStep s0 AppEvent.issue) es1)
          AppEvent.issue) es2)
        (appStep s0 AppEvent.issue).reqVer r =
      appRun (appStep (appRun (appStep s0 AppEvent.issue) es1)
        AppEvent.issue) es2 ∧
    (appStep s0 AppEvent.issue).reqVer ≠
      (appRun (appStep (appRun (appStep s0 AppEvent.issue) es1)
        AppEvent.issue) es2).reqVer := by
  have h1 : (appStep s0 AppEvent.issue).reqVer = s0.reqVer + 1 := rfl
  have h2 := appRun_reqVer_mono (appStep s0 AppEvent.issue) es1
  have h3 : (appStep (appRun (appStep s0 AppEvent.issue) es1)
      AppEvent.issue).reqVer =
      (appRun (appStep s0 AppEvent.issue) es1).reqVer + 1 := rfl
  have h4 := appRun_reqVer_mono
    (appStep (appRun (appStep s0 AppEvent.issue) es1) AppEvent.issue) es2
  have hne : (appStep s0 AppEvent.issue).reqVer ≠
      (appRun (appStep (appRun (appStep s0 AppEvent.issue) es1)
        AppEvent.issue) es2).reqVer := by
    omega
  exact ⟨deliver_stale _ _ _ hne, hne⟩

end StockSite
